import Mathlib

/-!
Shallow embedding of folly/experimental/observer/detail/ObserverManager.cpp.

The file models the two queues of the ObserverManager:
- the CurrentQueue (Recompute Pool): a bounded MPMC queue consumed by
  kCurrentThreadPoolSize worker threads (lines 34-85);
- the NextQueue (Propagation Queue): a bounded MPMC queue consumed by a single
  dedicated thread that batches node references, bumps the global version once
  per batch under the version write lock, and hands each batched node off for a
  forced refresh (lines 87-140);
together with the manager lifecycle (lines 142-172).

Machine integers are modelled as Nat (the version counter and queue sizes never
approach 2^64 in any claim considered here, and the counter is only ever
incremented by one). A folly::Function, which is nullable, is modelled as an
Option; the nullptr sentinel is none. Blocking operations are modelled by an
explicit outcome constructor (blocked) rather than by suspending. The single
consumer thread of the NextQueue is modelled by a step function over the queue
contents; concurrent producers are modelled by an arbitrary schedule of arrival
bursts, one burst delivered each time the consumer would block on an empty
queue.
-/

/-- Pool size: constexpr size_t kCurrentThreadPoolSize{4} (line 29). -/
def kCurrentThreadPoolSize : Nat := 4

/-- Recompute queue capacity: constexpr size_t kCurrentQueueSize{10 * 1024} (line 30). -/
def kCurrentQueueSize : Nat := 10 * 1024

/-- Propagation queue capacity: constexpr size_t kNextQueueSize{10 * 1024} (line 31). -/
def kNextQueueSize : Nat := 10 * 1024

/-- A graph node (Core) is identified by a natural number; the embedding only
needs node identity, since Core's own logic is an external collaborator. -/
abbrev Core := Nat

/-- A task submitted to the CurrentQueue. Its body is opaque to the manager;
what the worker loop observes is its identity and whether running it raises
(the try/catch at lines 49-54). -/
structure MgrTask where
  id : Nat
  fails : Bool
deriving DecidableEq

/-- A scheduleRefresh handoff as performed at line 120:
manager_.scheduleRefresh(std::move(core), manager_.version_, true). -/
structure RefreshCall where
  core : Core
  version : Nat
  force : Bool
deriving DecidableEq

/-- folly::MPMCQueue, bounded. Modelled from the spec: MPMCQueue.h is not part
of this excerpt; per sections 4.2 and 5 of the spec it is a bounded FIFO whose
non-blocking write succeeds iff the queue is below capacity and whose blocking
write waits for space instead of dropping. Items are listed front first. -/
structure MPMCQueue (α : Type) where
  capacity : Nat
  items : List α
deriving DecidableEq

/-- Non-blocking write (queue_.write, line 74): enqueues at the back iff the
queue is below capacity, otherwise fails leaving the queue unchanged. -/
def MPMCQueue.write {α : Type} (q : MPMCQueue α) (x : α) : Option (MPMCQueue α) :=
  if q.items.length < q.capacity then some ⟨q.capacity, q.items ++ [x]⟩ else none

/-- Outcome of a blocking write: either it completed (possibly after waiting),
or the queue is full and the caller is still blocked waiting for space. -/
inductive BlockingWriteResult (α : Type)
  | completed (q : MPMCQueue α)
  | blocked
deriving DecidableEq

/-- Blocking write (queue_.blockingWrite, lines 62, 78, 127, 132): completes
immediately when below capacity; when full the caller blocks (no error, no
drop) until space is available. -/
def MPMCQueue.blockingWrite {α : Type} (q : MPMCQueue α) (x : α) : BlockingWriteResult α :=
  match q.write x with
  | some q2 => BlockingWriteResult.completed q2
  | none => BlockingWriteResult.blocked

/-- Threads that interact with the manager: one of the kCurrentThreadPoolSize
pool workers, the NextQueue's dedicated propagation thread, or any other
(external) thread. -/
inductive ThreadKind
  | poolWorker (i : Fin kCurrentThreadPoolSize)
  | propagationThread
  | external
deriving DecidableEq

/-- Initial value of the thread-local flag:
FOLLY_TLS bool ObserverManager::inManagerThread_{false} (line 24). -/
def inManagerThreadInit : Bool := false

/-- Value of the thread-local inManagerThread_ flag per thread: each pool
worker sets it to true as the first statement of its loop (line 39); no other
thread ever writes it, so every other thread keeps the initial value. -/
def inManagerThread : ThreadKind → Bool
  | ThreadKind.poolWorker _ => true
  | ThreadKind.propagationThread => inManagerThreadInit
  | ThreadKind.external => inManagerThreadInit

/-- Result of CurrentQueue::add (lines 72-80): the task was enqueued, or the
non-blocking write failed and std::runtime_error was thrown with the queue left
unchanged, or the caller is blocked in blockingWrite waiting for space. -/
inductive AddResult (α : Type)
  | enqueued (q : MPMCQueue α)
  | overloadError (q : MPMCQueue α)
  | blocked
deriving DecidableEq

/-- Whether an AddResult is the overload error (the thrown runtime_error). -/
def AddResult.isOverload {α : Type} : AddResult α → Bool
  | AddResult.overloadError _ => true
  | _ => false

/-- CurrentQueue::add (lines 72-80): a caller on a pool worker thread does a
single non-blocking write and throws on failure; any other caller does a
blocking write. -/
def CurrentQueue.add (inMgrThread : Bool) (q : MPMCQueue (Option MgrTask))
    (task : Option MgrTask) : AddResult (Option MgrTask) :=
  if inMgrThread then
    match q.write task with
    | some q2 => AddResult.enqueued q2
    | none => AddResult.overloadError q
  else
    match q.blockingWrite task with
    | BlockingWriteResult.completed q2 => AddResult.enqueued q2
    | BlockingWriteResult.blocked => AddResult.blocked

/-- ObserverManager::scheduleCurrent (lines 154-156): forwards to
currentQueue_->add from the calling thread. -/
def scheduleCurrent (caller : ThreadKind) (q : MPMCQueue (Option MgrTask))
    (task : Option MgrTask) : AddResult (Option MgrTask) :=
  CurrentQueue.add (inManagerThread caller) q task

/-- Modelled from the spec: ObserverManager::scheduleRefresh is declared in
ObserverManager.h, which is not part of this excerpt. Per section 4.3 of the
spec, the propagation thread hands off a forced refresh, tagged with the
just-bumped version, to the Recompute Pool via scheduleCurrent-equivalent
dispatch, i.e. a CurrentQueue submission made from the calling thread. -/
def scheduleRefresh (caller : ThreadKind) (q : MPMCQueue (Option MgrTask))
    (call : RefreshCall) : AddResult (Option MgrTask) :=
  CurrentQueue.add (inManagerThread caller) q (some ⟨call.core, false⟩)

/-- A default-constructed folly::Function is empty, i.e. falsy under the
!task test at line 45; it is modelled as none. -/
def emptyFunction : Option MgrTask := none

/-- The shutdown sentinel pushed once per worker by the CurrentQueue
destructor: queue_.blockingWrite(nullptr) (line 62). A null folly::Function is
also falsy under the !task test at line 45. -/
def shutdownSentinel : Option MgrTask := none

/-- Events observable from one pool worker's loop (lines 41-55). -/
inductive WEvent
  | ran (id : Nat)
  | logged (id : Nat)
  | terminated
deriving DecidableEq

/-- Effects of running one task inside the try/catch at lines 49-54: the task
runs; if it raises, the exception is caught and logged (LOG(ERROR), lines
52-53) and nothing else happens. -/
def execEvents (t : MgrTask) : List WEvent :=
  if t.fails then [WEvent.ran t.id, WEvent.logged t.id] else [WEvent.ran t.id]

/-- One pool worker's loop (lines 41-55) over the sequence of queue items it
dequeues: a falsy task makes it return (line 46); otherwise it runs the task
under try/catch and loops. An empty remaining list means the worker is blocked
in blockingRead. -/
def workerLoop : List (Option MgrTask) → List WEvent
  | [] => []
  | none :: _ => [WEvent.terminated]
  | some t :: rest => execEvents t ++ workerLoop rest

/-- The pool's collective consumption of the queue, front to back, with w
workers still alive: a sentinel terminates one worker (lines 45-47); a genuine
task is executed by whichever worker dequeues it; once no worker is alive
nothing more is dequeued. -/
def poolDrain : Nat → List (Option MgrTask) → List WEvent
  | _, [] => []
  | 0, _ :: _ => []
  | w + 1, none :: rest => WEvent.terminated :: poolDrain w rest
  | w + 1, some t :: rest => execEvents t ++ poolDrain (w + 1) rest

/-- Events of the NextQueue thread's loop (lines 91-123): dequeues from the
queue, acquisition and release of the version write lock (the WriteHolder at
line 105), the version increment (line 116), each scheduleRefresh handoff
(line 120), and thread termination. -/
inductive NQEvent
  | dequeue (item : Option Core)
  | lockAcquire
  | lockRelease
  | bump (newVersion : Nat)
  | schedule (call : RefreshCall)
  | terminate
deriving DecidableEq

/-- Result of the greedy drain loop at lines 109-114. -/
structure DrainResult where
  events : List NQEvent
  cores : List Core
  remaining : List (Option Core)
  sawSentinel : Bool
deriving DecidableEq

/-- The greedy non-blocking drain at lines 109-114: while fewer than
kNextQueueSize cores are accumulated and queue_.read succeeds, take the next
item; a null item means the thread returns (line 110-112, sawSentinel); an
empty queue ends the loop. -/
def drainLoop : List (Option Core) → List Core → DrainResult
  | [], cores => ⟨[], cores, [], false⟩
  | item :: rest, cores =>
    if cores.length < kNextQueueSize then
      match item with
      | none => ⟨[NQEvent.dequeue none], cores, rest, true⟩
      | some c =>
        let d := drainLoop rest (cores ++ [c])
        ⟨NQEvent.dequeue (some c) :: d.events, d.cores, d.remaining, d.sawSentinel⟩
    else ⟨[], cores, item :: rest, false⟩

/-- Result of the NextQueue thread consuming one queue content: the final
version, the batches produced (each with the version assigned to it and the
refresh calls handed off for it), the event trace, and whether the thread
terminated (saw the sentinel). -/
structure QueueRunResult where
  version : Nat
  batches : List (Nat × List RefreshCall)
  trace : List NQEvent
  terminated : Bool
deriving DecidableEq

/-- The NextQueue thread's loop (lines 94-122) over one queue content, given
enough fuel (any fuel at least the queue length is exact, since every
iteration consumes at least one item). Each iteration: blockingRead one item
(line 95); null terminates the thread (lines 97-99); otherwise take the write
lock, greedily drain the already-queued items (lines 104-114; a null drained
item makes the thread return from inside the locked region, discarding the
cores collected so far, without bumping the version), bump the version once
(line 116), release the lock, and hand off every batched core with the version
read after the lock is released (lines 119-121). -/
def processQueue : Nat → Nat → List (Option Core) → QueueRunResult
  | _, v, [] => ⟨v, [], [], false⟩
  | 0, v, _ :: _ => ⟨v, [], [], false⟩
  | _ + 1, v, none :: _ => ⟨v, [], [NQEvent.dequeue none, NQEvent.terminate], true⟩
  | fuel + 1, v, some c :: q =>
    let d := drainLoop q [c]
    if d.sawSentinel then
      ⟨v, [],
        NQEvent.dequeue (some c) :: NQEvent.lockAcquire ::
          (d.events ++ [NQEvent.lockRelease, NQEvent.terminate]), true⟩
    else
      let v2 := v + 1
      let calls := d.cores.map (fun core => (⟨core, v2, true⟩ : RefreshCall))
      let rest := processQueue fuel v2 d.remaining
      ⟨rest.version, (v2, calls) :: rest.batches,
        NQEvent.dequeue (some c) :: NQEvent.lockAcquire ::
          (d.events ++ (NQEvent.bump v2 :: NQEvent.lockRelease ::
            (calls.map NQEvent.schedule ++ rest.trace))), rest.terminated⟩

/-- Result of a whole run of the NextQueue thread. -/
structure RunResult where
  version : Nat
  batches : List (Nat × List RefreshCall)
  trace : List NQEvent
deriving DecidableEq

/-- A whole run of the NextQueue thread under a schedule of arrival bursts:
each time the thread would block on an empty queue, the next burst of
concurrently submitted items (NextQueue::add, lines 126-128) is delivered; the
thread processes it to exhaustion, then waits for the next burst; a drained
sentinel ends the run. -/
def nextQueueRun (v : Nat) : List (List (Option Core)) → RunResult
  | [] => ⟨v, [], []⟩
  | burst :: rest =>
    let p := processQueue burst.length v burst
    if p.terminated then ⟨p.version, p.batches, p.trace⟩
    else
      let r := nextQueueRun p.version rest
      ⟨r.version, p.batches ++ r.batches, p.trace ++ r.trace⟩

/-- The refresh calls handed off in a trace, in order. -/
def scheduledCalls (tr : List NQEvent) : List RefreshCall :=
  tr.filterMap fun e =>
    match e with
    | NQEvent.schedule c => some c
    | _ => none

/-- Whether an event is the version increment. -/
def isBumpEvent : NQEvent → Bool
  | NQEvent.bump _ => true
  | _ => false

/-- State of the version write lock while scanning a trace: not held, or held
with a record of whether the version has been bumped in this locked section. -/
inductive LockSt
  | unlocked
  | held (bumped : Bool)
deriving DecidableEq

/-- One step of the lock-discipline scan; none is a violation. Acquiring is
only legal when unlocked, releasing when held, bumping the version only when
the lock is held and at most once per locked section, scheduling a refresh and
terminating only when the lock is not held; dequeues are legal in either
state. -/
def lockStep : Option LockSt → NQEvent → Option LockSt
  | none, _ => none
  | some LockSt.unlocked, NQEvent.lockAcquire => some (LockSt.held false)
  | some (LockSt.held _), NQEvent.lockAcquire => none
  | some (LockSt.held _), NQEvent.lockRelease => some LockSt.unlocked
  | some LockSt.unlocked, NQEvent.lockRelease => none
  | some (LockSt.held false), NQEvent.bump _ => some (LockSt.held true)
  | some (LockSt.held true), NQEvent.bump _ => none
  | some LockSt.unlocked, NQEvent.bump _ => none
  | some LockSt.unlocked, NQEvent.schedule _ => some LockSt.unlocked
  | some (LockSt.held _), NQEvent.schedule _ => none
  | some s, NQEvent.dequeue _ => some s
  | some LockSt.unlocked, NQEvent.terminate => some LockSt.unlocked
  | some (LockSt.held _), NQEvent.terminate => none

/-- Scan a trace checking the lock discipline, starting from a given lock
state; some s means no violation occurred and the scan ended in state s. -/
def lockScan (tr : List NQEvent) (s : LockSt) : Option LockSt :=
  tr.foldl lockStep (some s)

/-- One step of the version-stamp scan: tracks the last value written to the
version counter; a schedule event whose stamped version differs from the
counter's current value is a violation (none). -/
def stampStep : Option Nat → NQEvent → Option Nat
  | none, _ => none
  | some _, NQEvent.bump w => some w
  | some v, NQEvent.schedule c => if c.version = v then some v else none
  | some v, _ => some v

/-- Scan a trace checking that every refresh handoff is stamped with the
current value of the version counter, starting from counter value v. -/
def stampScan (tr : List NQEvent) (v : Nat) : Option Nat :=
  tr.foldl stampStep (some v)

/-- A std::unique_ptr lifetime operation. -/
inductive SmartPtrOp
  | reset
  | release
deriving DecidableEq

/-- unique_ptr semantics: reset() destroys the managed object; release()
relinquishes ownership without destroying it (the object is leaked unless the
returned raw pointer is deleted elsewhere, which the destructor at lines
147-152 does not do). -/
def SmartPtrOp.destroysManaged : SmartPtrOp → Bool
  | SmartPtrOp.reset => true
  | SmartPtrOp.release => false

/-- The operation the ObserverManager destructor applies to nextQueue_
(line 150): nextQueue_.release(). -/
def observerManagerDtorNextQueueOp : SmartPtrOp := SmartPtrOp.release

/-- The operation the ObserverManager destructor applies to currentQueue_
(line 151): currentQueue_.release(). -/
def observerManagerDtorCurrentQueueOp : SmartPtrOp := SmartPtrOp.release

/-- The pool workers are joined, and the recompute queue drained and checked
empty, only inside the CurrentQueue destructor (lines 60-70); after manager
teardown those things have happened iff that destructor was actually
invoked. -/
def workersTerminatedAfterTeardown : Bool :=
  SmartPtrOp.destroysManaged observerManagerDtorCurrentQueueOp

/-- The recompute queue is drained to empty (sentinels consumed, CHECK at line
69) only if the CurrentQueue destructor runs. -/
def currentQueueEmptyAfterTeardown : Bool :=
  SmartPtrOp.destroysManaged observerManagerDtorCurrentQueueOp

/-- The propagation thread is joined only inside the NextQueue destructor
(lines 130-134); after manager teardown it has terminated iff that destructor
was actually invoked. -/
def propagationThreadTerminatedAfterTeardown : Bool :=
  SmartPtrOp.destroysManaged observerManagerDtorNextQueueOp

/-- State of the process-wide ObserverManager singleton. -/
inductive SingletonState
  | live
  | destroyed
deriving DecidableEq

/-- The handle getInstance returns when the singleton is alive. -/
inductive SingletonHandle
  | observerManager
deriving DecidableEq

/-- Modelled from the spec: folly::Singleton::try_get (folly/Singleton.h, not
part of this excerpt) returns a handle to the singleton while it is alive and
an empty shared_ptr once the singleton has been torn down, rather than
crashing (sections 4.1 and 7 of the spec: getting the instance after teardown
yields no instance available, not a crash). -/
def Singleton.tryGet : SingletonState → Option SingletonHandle
  | SingletonState.live => some SingletonHandle.observerManager
  | SingletonState.destroyed => none

/-- ObserverManager::getInstance (lines 170-172): returns
Singleton::instance.try_get(). -/
def getInstance (s : SingletonState) : Option SingletonHandle :=
  Singleton.tryGet s

/-- Index of the first pool worker thread. -/
def workerZeroIdx : Fin kCurrentThreadPoolSize := ⟨0, by decide⟩

/-- A recompute queue at capacity (kCurrentQueueSize items queued). -/
def fullCurrentQueue : MPMCQueue (Option MgrTask) :=
  ⟨kCurrentQueueSize, List.replicate kCurrentQueueSize none⟩

/-- A freshly constructed recompute queue (line 36): capacity
kCurrentQueueSize, empty. -/
def freeCurrentQueue : MPMCQueue (Option MgrTask) :=
  ⟨kCurrentQueueSize, []⟩

/-! Helper lemmas about the scans and the drain loop. -/

theorem lockStep_dequeue (o : Option LockSt) (it : Option Core) :
    lockStep o (NQEvent.dequeue it) = o := by
  cases o with
  | none => rfl
  | some s =>
    cases s with
    | unlocked => rfl
    | held b => cases b <;> rfl

theorem stampStep_dequeue (o : Option Nat) (it : Option Core) :
    stampStep o (NQEvent.dequeue it) = o := by
  cases o <;> rfl

theorem drainLoop_events_foldl_lockStep (q : List (Option Core)) :
    ∀ (cs : List Core) (o : Option LockSt),
      (drainLoop q cs).events.foldl lockStep o = o := by
  induction q with
  | nil => intro cs o; simp [drainLoop]
  | cons item rest ih =>
    intro cs o
    simp only [drainLoop]
    split
    · cases item with
      | none => simp [lockStep_dequeue]
      | some c => simp [lockStep_dequeue, ih]
    · simp

theorem drainLoop_events_foldl_stampStep (q : List (Option Core)) :
    ∀ (cs : List Core) (o : Option Nat),
      (drainLoop q cs).events.foldl stampStep o = o := by
  induction q with
  | nil => intro cs o; simp [drainLoop]
  | cons item rest ih =>
    intro cs o
    simp only [drainLoop]
    split
    · cases item with
      | none => simp [stampStep_dequeue]
      | some c => simp [stampStep_dequeue, ih]
    · simp

theorem drainLoop_events_dequeue (q : List (Option Core)) :
    ∀ (cs : List Core), ∀ e ∈ (drainLoop q cs).events, ∃ it, e = NQEvent.dequeue it := by
  induction q with
  | nil => intro cs e he; simp [drainLoop] at he
  | cons item rest ih =>
    intro cs e he
    simp only [drainLoop] at he
    split at he
    · cases item with
      | none =>
        simp at he
        exact ⟨none, he⟩
      | some c =>
        simp at he
        rcases he with he | he
        · exact ⟨some c, he⟩
        · exact ih (cs ++ [c]) e he
    · simp at he

theorem drainLoop_bumpCount (q : List (Option Core)) (cs : List Core) :
    (drainLoop q cs).events.countP isBumpEvent = 0 := by
  rw [List.countP_eq_zero]
  intro e he
  rcases drainLoop_events_dequeue q cs e he with ⟨it, rfl⟩
  simp [isBumpEvent]

theorem schedules_foldl_lockStep (calls : List RefreshCall) :
    (calls.map NQEvent.schedule).foldl lockStep (some LockSt.unlocked)
      = some LockSt.unlocked := by
  induction calls with
  | nil => rfl
  | cons c rest ih => simpa [lockStep] using ih

theorem schedules_foldl_stampStep (calls : List RefreshCall) (v : Nat)
    (h : ∀ c ∈ calls, c.version = v) :
    (calls.map NQEvent.schedule).foldl stampStep (some v) = some v := by
  induction calls with
  | nil => rfl
  | cons c rest ih =>
    have hc : c.version = v := h c (by simp)
    simp only [List.map_cons, List.foldl_cons, stampStep, hc, if_pos rfl]
    exact ih (fun c2 hc2 => h c2 (by simp [hc2]))

theorem schedules_bumpCount (calls : List RefreshCall) :
    (calls.map NQEvent.schedule).countP isBumpEvent = 0 := by
  rw [List.countP_eq_zero]
  intro e he
  simp only [List.mem_map] at he
  rcases he with ⟨c, _, rfl⟩
  simp [isBumpEvent]

/-! Invariants of one processQueue run of the NextQueue thread. -/

theorem processQueue_version (fuel : Nat) :
    ∀ (v : Nat) (q : List (Option Core)),
      (processQueue fuel v q).version = v + (processQueue fuel v q).batches.length := by
  induction fuel with
  | zero =>
    intro v q
    cases q with
    | nil => simp [processQueue]
    | cons item rest => simp [processQueue]
  | succ fuel ih =>
    intro v q
    cases q with
    | nil => simp [processQueue]
    | cons item rest =>
      cases item with
      | none => simp [processQueue]
      | some c =>
        simp only [processQueue]
        split
        · simp
        · simp only [List.length_cons, ih]
          omega

theorem processQueue_batch_versions (fuel : Nat) :
    ∀ (v : Nat) (q : List (Option Core)),
      (processQueue fuel v q).batches.map Prod.fst
        = List.range' (v + 1) (processQueue fuel v q).batches.length := by
  induction fuel with
  | zero =>
    intro v q
    cases q with
    | nil => simp [processQueue]
    | cons item rest => simp [processQueue]
  | succ fuel ih =>
    intro v q
    cases q with
    | nil => simp [processQueue]
    | cons item rest =>
      cases item with
      | none => simp [processQueue]
      | some c =>
        by_cases hs : (drainLoop rest [c]).sawSentinel
        · simp [processQueue, hs]
        · simp only [processQueue, hs, Bool.false_eq_true, if_false,
            List.map_cons, List.length_cons, List.range'_succ]
          rw [ih]

theorem processQueue_batch_calls (fuel : Nat) :
    ∀ (v : Nat) (q : List (Option Core)),
      ∀ b ∈ (processQueue fuel v q).batches, ∀ call ∈ b.2,
        call.version = b.1 ∧ call.force = true := by
  induction fuel with
  | zero =>
    intro v q b hb
    cases q with
    | nil => simp [processQueue] at hb
    | cons item rest => simp [processQueue] at hb
  | succ fuel ih =>
    intro v q b hb call hc
    cases q with
    | nil => simp [processQueue] at hb
    | cons item rest =>
      cases item with
      | none => simp [processQueue] at hb
      | some c =>
        by_cases hs : (drainLoop rest [c]).sawSentinel
        · simp [processQueue, hs] at hb
        · simp only [processQueue, hs, Bool.false_eq_true, if_false,
            List.mem_cons] at hb
          rcases hb with rfl | hb
          · simp only [List.mem_map] at hc
            rcases hc with ⟨core, _, rfl⟩
            exact ⟨rfl, rfl⟩
          · exact ih (v + 1) (drainLoop rest [c]).remaining b hb call hc

theorem processQueue_schedules (fuel : Nat) :
    ∀ (v : Nat) (q : List (Option Core)),
      ∀ b ∈ (processQueue fuel v q).batches, ∀ call ∈ b.2,
        NQEvent.schedule call ∈ (processQueue fuel v q).trace := by
  induction fuel with
  | zero =>
    intro v q b hb
    cases q with
    | nil => simp [processQueue] at hb
    | cons item rest => simp [processQueue] at hb
  | succ fuel ih =>
    intro v q b hb call hc
    cases q with
    | nil => simp [processQueue] at hb
    | cons item rest =>
      cases item with
      | none => simp [processQueue] at hb
      | some c =>
        by_cases hs : (drainLoop rest [c]).sawSentinel
        · simp [processQueue, hs] at hb
        · simp only [processQueue, hs, Bool.false_eq_true, if_false,
            List.mem_cons] at hb ⊢
          simp only [List.mem_append, List.mem_cons]
          rcases hb with rfl | hb
          · have : NQEvent.schedule call ∈
                ((drainLoop rest [c]).cores.map
                  (fun core => (⟨core, v + 1, true⟩ : RefreshCall))).map NQEvent.schedule :=
              List.mem_map_of_mem NQEvent.schedule hc
            tauto
          · have := ih (v + 1) (drainLoop rest [c]).remaining b hb call hc
            tauto

theorem processQueue_lockScan (fuel : Nat) :
    ∀ (v : Nat) (q : List (Option Core)),
      lockScan (processQueue fuel v q).trace LockSt.unlocked = some LockSt.unlocked := by
  induction fuel with
  | zero =>
    intro v q
    cases q with
    | nil => simp [processQueue, lockScan]
    | cons item rest => simp [processQueue, lockScan]
  | succ fuel ih =>
    intro v q
    cases q with
    | nil => simp [processQueue, lockScan]
    | cons item rest =>
      cases item with
      | none => simp [processQueue, lockScan, lockStep]
      | some c =>
        by_cases hs : (drainLoop rest [c]).sawSentinel
        · simp only [processQueue, hs, if_true, lockScan, List.foldl_cons]
          rw [show lockStep (lockStep (some LockSt.unlocked) (NQEvent.dequeue (some c)))
              NQEvent.lockAcquire = some (LockSt.held false) from rfl]
          rw [List.foldl_append, drainLoop_events_foldl_lockStep]
          rfl
        · simp only [processQueue, hs, Bool.false_eq_true, if_false, lockScan,
            List.foldl_cons]
          rw [show lockStep (lockStep (some LockSt.unlocked) (NQEvent.dequeue (some c)))
              NQEvent.lockAcquire = some (LockSt.held false) from rfl]
          rw [List.foldl_append, drainLoop_events_foldl_lockStep]
          simp only [List.foldl_cons]
          rw [show lockStep (lockStep (some (LockSt.held false)) (NQEvent.bump (v + 1)))
              NQEvent.lockRelease = some LockSt.unlocked from rfl]
          rw [List.foldl_append, schedules_foldl_lockStep]
          exact ih (v + 1) (drainLoop rest [c]).remaining

theorem processQueue_stampScan (fuel : Nat) :
    ∀ (v : Nat) (q : List (Option Core)),
      stampScan (processQueue fuel v q).trace v = some (processQueue fuel v q).version := by
  induction fuel with
  | zero =>
    intro v q
    cases q with
    | nil => simp [processQueue, stampScan]
    | cons item rest => simp [processQueue, stampScan]
  | succ fuel ih =>
    intro v q
    cases q with
    | nil => simp [processQueue, stampScan]
    | cons item rest =>
      cases item with
      | none => simp [processQueue, stampScan, stampStep]
      | some c =>
        by_cases hs : (drainLoop rest [c]).sawSentinel
        · simp only [processQueue, hs, if_true, stampScan, List.foldl_cons]
          rw [show stampStep (stampStep (some v) (NQEvent.dequeue (some c)))
              NQEvent.lockAcquire = some v from rfl]
          rw [List.foldl_append, drainLoop_events_foldl_stampStep]
          rfl
        · simp only [processQueue, hs, Bool.false_eq_true, if_false, stampScan,
            List.foldl_cons]
          rw [show stampStep (stampStep (some v) (NQEvent.dequeue (some c)))
              NQEvent.lockAcquire = some v from rfl]
          rw [List.foldl_append, drainLoop_events_foldl_stampStep]
          simp only [List.foldl_cons]
          rw [show stampStep (stampStep (some v) (NQEvent.bump (v + 1)))
              NQEvent.lockRelease = some (v + 1) from rfl]
          rw [List.foldl_append, schedules_foldl_stampStep _ (v + 1)]
          · exact ih (v + 1) (drainLoop rest [c]).remaining
          · intro call hc
            simp only [List.mem_map] at hc
            rcases hc with ⟨core, _, rfl⟩
            rfl

theorem processQueue_bumpCount (fuel : Nat) :
    ∀ (v : Nat) (q : List (Option Core)),
      (processQueue fuel v q).trace.countP isBumpEvent
        = (processQueue fuel v q).batches.length := by
  induction fuel with
  | zero =>
    intro v q
    cases q with
    | nil => simp [processQueue]
    | cons item rest => simp [processQueue]
  | succ fuel ih =>
    intro v q
    cases q with
    | nil => simp [processQueue]
    | cons item rest =>
      cases item with
      | none => simp [processQueue, isBumpEvent]
      | some c =>
        by_cases hs : (drainLoop rest [c]).sawSentinel
        · simp [processQueue, hs, List.countP_cons, List.countP_append,
            drainLoop_bumpCount, isBumpEvent]
        · simp only [processQueue, hs, Bool.false_eq_true, if_false,
            List.countP_cons, List.countP_append, drainLoop_bumpCount,
            schedules_bumpCount, isBumpEvent, ih, List.length_cons]
          simp only [if_true]
          omega

/-! Invariants of a whole NextQueue run (across arrival bursts). -/

theorem nextQueueRun_version (arrivals : List (List (Option Core))) :
    ∀ (v : Nat),
      (nextQueueRun v arrivals).version = v + (nextQueueRun v arrivals).batches.length := by
  induction arrivals with
  | nil => intro v; simp [nextQueueRun]
  | cons burst rest ih =>
    intro v
    simp only [nextQueueRun]
    split
    · exact processQueue_version burst.length v burst
    · simp only [List.length_append, ih, processQueue_version burst.length v burst]
      omega

theorem nextQueueRun_batch_versions (arrivals : List (List (Option Core))) :
    ∀ (v : Nat),
      (nextQueueRun v arrivals).batches.map Prod.fst
        = List.range' (v + 1) (nextQueueRun v arrivals).batches.length := by
  induction arrivals with
  | nil => intro v; simp [nextQueueRun]
  | cons burst rest ih =>
    intro v
    simp only [nextQueueRun]
    split
    · exact processQueue_batch_versions burst.length v burst
    · simp only [List.map_append, List.length_append]
      rw [processQueue_batch_versions burst.length v burst, ih]
      have hv : (processQueue burst.length v burst).version + 1
          = (v + 1) + (processQueue burst.length v burst).batches.length := by
        rw [processQueue_version burst.length v burst]; omega
      rw [hv, List.range'_append_1]
      congr 1
      omega

theorem nextQueueRun_batch_calls (arrivals : List (List (Option Core))) :
    ∀ (v : Nat), ∀ b ∈ (nextQueueRun v arrivals).batches, ∀ call ∈ b.2,
      call.version = b.1 ∧ call.force = true := by
  induction arrivals with
  | nil => intro v b hb; simp [nextQueueRun] at hb
  | cons burst rest ih =>
    intro v b hb call hc
    simp only [nextQueueRun] at hb
    split at hb
    · exact processQueue_batch_calls burst.length v burst b hb call hc
    · simp only [List.mem_append] at hb
      rcases hb with hb | hb
      · exact processQueue_batch_calls burst.length v burst b hb call hc
      · exact ih _ b hb call hc

theorem nextQueueRun_schedules (arrivals : List (List (Option Core))) :
    ∀ (v : Nat), ∀ b ∈ (nextQueueRun v arrivals).batches, ∀ call ∈ b.2,
      NQEvent.schedule call ∈ (nextQueueRun v arrivals).trace := by
  induction arrivals with
  | nil => intro v b hb; simp [nextQueueRun] at hb
  | cons burst rest ih =>
    intro v b hb call hc
    simp only [nextQueueRun] at hb ⊢
    split at hb
    · rename_i h
      simp only [h, if_true]
      exact processQueue_schedules burst.length v burst b hb call hc
    · rename_i h
      simp only [h, Bool.false_eq_true, if_false, List.mem_append]
      simp only [List.mem_append] at hb
      rcases hb with hb | hb
      · exact Or.inl (processQueue_schedules burst.length v burst b hb call hc)
      · exact Or.inr (ih _ b hb call hc)

theorem nextQueueRun_lockScan (arrivals : List (List (Option Core))) :
    ∀ (v : Nat),
      lockScan (nextQueueRun v arrivals).trace LockSt.unlocked = some LockSt.unlocked := by
  induction arrivals with
  | nil => intro v; simp [nextQueueRun, lockScan]
  | cons burst rest ih =>
    intro v
    simp only [nextQueueRun]
    split
    · exact processQueue_lockScan burst.length v burst
    · simp only [lockScan, List.foldl_append]
      have h1 := processQueue_lockScan burst.length v burst
      simp only [lockScan] at h1
      rw [h1]
      exact ih _

theorem nextQueueRun_stampScan (arrivals : List (List (Option Core))) :
    ∀ (v : Nat),
      stampScan (nextQueueRun v arrivals).trace v = some (nextQueueRun v arrivals).version := by
  induction arrivals with
  | nil => intro v; simp [nextQueueRun, stampScan]
  | cons burst rest ih =>
    intro v
    simp only [nextQueueRun]
    split
    · exact processQueue_stampScan burst.length v burst
    · simp only [stampScan, List.foldl_append]
      have h1 := processQueue_stampScan burst.length v burst
      simp only [stampScan] at h1
      rw [h1]
      exact ih _

theorem nextQueueRun_bumpCount (arrivals : List (List (Option Core))) :
    ∀ (v : Nat),
      (nextQueueRun v arrivals).trace.countP isBumpEvent
        = (nextQueueRun v arrivals).batches.length := by
  induction arrivals with
  | nil => intro v; simp [nextQueueRun]
  | cons burst rest ih =>
    intro v
    simp only [nextQueueRun]
    split
    · exact processQueue_bumpCount burst.length v burst
    · simp only [List.countP_append, List.length_append,
        processQueue_bumpCount burst.length v burst, ih]

/-! Helper lemmas about the worker pool. -/

theorem ran_mem_execEvents (t : MgrTask) : WEvent.ran t.id ∈ execEvents t := by
  by_cases h : t.fails <;> simp [execEvents, h]

theorem poolDrain_runs_all (tasks : List MgrTask) :
    ∀ (w : Nat) (tail : List (Option MgrTask)) (t : MgrTask), t ∈ tasks →
      WEvent.ran t.id ∈ poolDrain (w + 1) (tasks.map some ++ tail) := by
  induction tasks with
  | nil => intro w tail t ht; simp at ht
  | cons u rest ih =>
    intro w tail t ht
    simp only [List.map_cons, List.cons_append, poolDrain]
    rcases List.mem_cons.mp ht with rfl | ht
    · exact List.mem_append_left _ (ran_mem_execEvents t)
    · exact List.mem_append_right _ (ih w tail t ht)

/-! Claim theorems. -/

/-- C1: every node drained into one propagation batch is handed to the
Recompute Pool stamped with the batch's single version value; the global
version is incremented exactly once per batch (the final counter value is the
initial value plus the number of batches, and the trace contains exactly one
increment per batch); each batch's version is strictly greater than the
initial version; and the versions assigned across successive batches are the
consecutive values following the initial version, hence strictly increasing
and never reused. -/
theorem c1_batch_version_stamping (v : Nat) (arrivals : List (List (Option Core)))
    (b : Nat × List RefreshCall) (hb : b ∈ (nextQueueRun v arrivals).batches)
    (call : RefreshCall) (hc : call ∈ b.2) :
    call.version = b.1 ∧
    v < b.1 ∧
    (nextQueueRun v arrivals).batches.map Prod.fst
      = List.range' (v + 1) (nextQueueRun v arrivals).batches.length ∧
    (nextQueueRun v arrivals).version = v + (nextQueueRun v arrivals).batches.length ∧
    (nextQueueRun v arrivals).trace.countP isBumpEvent
      = (nextQueueRun v arrivals).batches.length := by
  refine ⟨(nextQueueRun_batch_calls arrivals v b hb call hc).1, ?_,
    nextQueueRun_batch_versions arrivals v, nextQueueRun_version arrivals v,
    nextQueueRun_bumpCount arrivals v⟩
  have hmem : b.1 ∈ (nextQueueRun v arrivals).batches.map Prod.fst :=
    List.mem_map_of_mem Prod.fst hb
  rw [nextQueueRun_batch_versions arrivals v] at hmem
  have := (List.mem_range'_1.mp hmem).1
  omega

/-- C1 witness: the theorem applied to the concrete run from version 0 with
two arrival bursts, [some 1, some 2] and [some 3]: the call for node 2 in the
first batch is stamped with that batch's version 1, which is greater than 0,
batch versions are [1, 2], the final version is 0 plus the number of batches,
and the trace holds one bump per batch. -/
theorem c1_batch_version_stamping_witness :
    (⟨2, 1, true⟩ : RefreshCall).version
        = ((1, [(⟨1, 1, true⟩ : RefreshCall), ⟨2, 1, true⟩]) : Nat × List RefreshCall).1 ∧
    0 < ((1, [(⟨1, 1, true⟩ : RefreshCall), ⟨2, 1, true⟩]) : Nat × List RefreshCall).1 ∧
    (nextQueueRun 0 [[some 1, some 2], [some 3]]).batches.map Prod.fst
      = List.range' (0 + 1) (nextQueueRun 0 [[some 1, some 2], [some 3]]).batches.length ∧
    (nextQueueRun 0 [[some 1, some 2], [some 3]]).version
      = 0 + (nextQueueRun 0 [[some 1, some 2], [some 3]]).batches.length ∧
    (nextQueueRun 0 [[some 1, some 2], [some 3]]).trace.countP isBumpEvent
      = (nextQueueRun 0 [[some 1, some 2], [some 3]]).batches.length :=
  c1_batch_version_stamping 0 [[some 1, some 2], [some 3]]
    (1, [⟨1, 1, true⟩, ⟨2, 1, true⟩]) (by decide) ⟨2, 1, true⟩ (by decide)

/-- C2: when the recompute queue is at capacity, a scheduleCurrent submission
from a pool worker thread raises the overload error synchronously with the
queue left unchanged, while the same submission from a non-worker thread does
not raise but blocks; once the queue has space, the non-worker submission
enqueues the task at the back. -/
theorem c2_backpressure (i : Fin kCurrentThreadPoolSize)
    (q qfree : MPMCQueue (Option MgrTask)) (task : Option MgrTask)
    (hfull : q.capacity ≤ q.items.length)
    (hfree : qfree.items.length < qfree.capacity) :
    scheduleCurrent (ThreadKind.poolWorker i) q task = AddResult.overloadError q ∧
    scheduleCurrent ThreadKind.external q task = AddResult.blocked ∧
    scheduleCurrent ThreadKind.external qfree task
      = AddResult.enqueued ⟨qfree.capacity, qfree.items ++ [task]⟩ := by
  have hnf : ¬ q.items.length < q.capacity := by omega
  refine ⟨?_, ?_, ?_⟩ <;>
    simp [scheduleCurrent, CurrentQueue.add, inManagerThread, inManagerThreadInit,
      MPMCQueue.write, MPMCQueue.blockingWrite, hnf, hfree]

/-- C2 witness: the theorem applied to a full recompute queue (capacity
kCurrentQueueSize, all slots occupied) and to the empty one. -/
theorem c2_backpressure_witness :
    scheduleCurrent (ThreadKind.poolWorker workerZeroIdx) fullCurrentQueue
        (some ⟨1, false⟩) = AddResult.overloadError fullCurrentQueue ∧
    scheduleCurrent ThreadKind.external fullCurrentQueue (some ⟨1, false⟩)
        = AddResult.blocked ∧
    scheduleCurrent ThreadKind.external freeCurrentQueue (some ⟨1, false⟩)
        = AddResult.enqueued
            ⟨freeCurrentQueue.capacity, freeCurrentQueue.items ++ [some ⟨1, false⟩]⟩ :=
  c2_backpressure workerZeroIdx fullCurrentQueue freeCurrentQueue (some ⟨1, false⟩)
    (by simp [fullCurrentQueue]) (by simp [freeCurrentQueue, kCurrentQueueSize])

/-- C3: in every NextQueue run, the version write lock is acquired once per
iteration around the batch drain and the single version increment and released
before any refresh handoff: the trace satisfies the lock discipline under
which dequeues and at most one version bump happen while the lock is held and
every schedule event happens while it is not held. -/
theorem c3_lock_discipline (v : Nat) (arrivals : List (List (Option Core))) :
    lockScan (nextQueueRun v arrivals).trace LockSt.unlocked = some LockSt.unlocked :=
  nextQueueRun_lockScan arrivals v

/-- C4 counterexample: the claim that every genuine item enqueued before the
sentinel is scheduled for refresh fails for the Propagation Queue. With node 1
enqueued before the shutdown sentinel, the thread dequeues node 1, then drains
the sentinel inside the same batch and returns: the run terminates with no
batch formed and no refresh ever scheduled for node 1. -/
theorem c4_sentinel_discards_batch :
    (nextQueueRun 0 [[some 1, none]]).batches = [] ∧
    scheduledCalls (nextQueueRun 0 [[some 1, none]]).trace = [] ∧
    NQEvent.dequeue (some 1) ∈ (nextQueueRun 0 [[some 1, none]]).trace ∧
    NQEvent.terminate ∈ (nextQueueRun 0 [[some 1, none]]).trace := by
  decide

/-- C4 amended: for the Recompute Pool the claim holds: every genuine task
enqueued ahead of the per-worker sentinels is dequeued and executed while at
least one worker is alive. For the Propagation Queue only nodes of batches
whose version was assigned are handed off: every call of every produced batch
appears as a schedule event in the trace (whereas nodes drained into the same
batch as the sentinel are discarded, as the counterexample shows). -/
theorem c4_shutdown_drain_amended (tasks : List MgrTask) (t : MgrTask)
    (ht : t ∈ tasks) (w : Nat) (tail : List (Option MgrTask))
    (v : Nat) (arrivals : List (List (Option Core)))
    (b : Nat × List RefreshCall) (hb : b ∈ (nextQueueRun v arrivals).batches)
    (call : RefreshCall) (hc : call ∈ b.2) :
    WEvent.ran t.id ∈ poolDrain (w + 1) (tasks.map some ++ tail) ∧
    NQEvent.schedule call ∈ (nextQueueRun v arrivals).trace :=
  ⟨poolDrain_runs_all tasks w tail t ht,
   nextQueueRun_schedules arrivals v b hb call hc⟩

/-- C4 witness: the amended theorem applied to a pool of four workers draining
one genuine task ahead of the four sentinels, and to the run that batches node
5 under version 1. -/
theorem c4_shutdown_drain_amended_witness :
    WEvent.ran 7 ∈ poolDrain (3 + 1)
        ([(⟨7, false⟩ : MgrTask)].map some
          ++ List.replicate kCurrentThreadPoolSize none) ∧
    NQEvent.schedule ⟨5, 1, true⟩ ∈ (nextQueueRun 0 [[some 5]]).trace :=
  c4_shutdown_drain_amended [⟨7, false⟩] ⟨7, false⟩ (by decide) 3
    (List.replicate kCurrentThreadPoolSize none) 0 [[some 5]]
    (1, [⟨5, 1, true⟩]) (by decide) ⟨5, 1, true⟩ (by decide)

/-- C5: the claim says that after teardown the recompute queue is empty and
the propagation thread and the four workers have terminated; but the
ObserverManager destructor calls unique_ptr release() on both queues, which
relinquishes ownership without invoking the queue destructors, so the
sentinels are never pushed, no thread is joined, and the queue is never
drained: nothing the claim requires of teardown actually happens. -/
theorem c5_teardown_release_leak :
    observerManagerDtorNextQueueOp = SmartPtrOp.release ∧
    observerManagerDtorCurrentQueueOp = SmartPtrOp.release ∧
    workersTerminatedAfterTeardown = false ∧
    propagationThreadTerminatedAfterTeardown = false ∧
    currentQueueEmptyAfterTeardown = false :=
  ⟨rfl, rfl, rfl, rfl, rfl⟩

/-- C6: a failure raised while a task runs is caught at the worker-loop level
and logged; the worker neither terminates nor skips subsequent work: the loop
continues with exactly the remaining queue, a task submitted after the failing
one still executes, and the failing task's execution produces no terminated
event. -/
theorem c6_worker_failure_isolation (t u : MgrTask) (rest : List (Option MgrTask))
    (hfail : t.fails = true) :
    workerLoop (some t :: some u :: rest)
      = WEvent.ran t.id :: WEvent.logged t.id :: (execEvents u ++ workerLoop rest) ∧
    WEvent.ran u.id ∈ workerLoop (some t :: some u :: rest) ∧
    WEvent.terminated ∉ execEvents t := by
  refine ⟨?_, ?_, ?_⟩
  · simp [workerLoop, execEvents, hfail]
  · simp only [workerLoop]
    exact List.mem_append_right _ (List.mem_append_left _ (ran_mem_execEvents u))
  · simp [execEvents, hfail]

/-- C6 witness: the theorem applied to a failing task (id 1) followed by a
succeeding one (id 2). -/
theorem c6_worker_failure_isolation_witness :
    workerLoop [some ⟨1, true⟩, some ⟨2, false⟩]
      = WEvent.ran 1 :: WEvent.logged 1 :: (execEvents ⟨2, false⟩ ++ workerLoop []) ∧
    WEvent.ran 2 ∈ workerLoop [some ⟨1, true⟩, some ⟨2, false⟩] ∧
    WEvent.terminated ∉ execEvents ⟨1, true⟩ :=
  c6_worker_failure_isolation ⟨1, true⟩ ⟨2, false⟩ [] rfl

/-- C7: getInstance after the singleton has been torn down returns the
explicit empty result rather than a handle to a destroyed object, while a
live singleton yields the handle. -/
theorem c7_getInstance_after_teardown :
    getInstance SingletonState.destroyed = none ∧
    getInstance SingletonState.live = some SingletonHandle.observerManager :=
  ⟨rfl, rfl⟩

/-- C8: in the embedding the version counter is mutated only by the
propagation thread's run (bump events), exactly once per processed batch
(bump count equals batch count, and the final counter is the initial one plus
the batch count), each bump happens while the write lock is held (lock
discipline), and the post-lock handoff loop's unlocked read of the counter
yields the same value for every node of a batch: every schedule event in the
trace is stamped with the counter's value at that point, and every call of a
batch carries that batch's version. -/
theorem c8_single_writer_stamps (v : Nat) (arrivals : List (List (Option Core)))
    (b : Nat × List RefreshCall) (hb : b ∈ (nextQueueRun v arrivals).batches)
    (call : RefreshCall) (hc : call ∈ b.2) :
    stampScan (nextQueueRun v arrivals).trace v = some (nextQueueRun v arrivals).version ∧
    (nextQueueRun v arrivals).trace.countP isBumpEvent
      = (nextQueueRun v arrivals).batches.length ∧
    (nextQueueRun v arrivals).version = v + (nextQueueRun v arrivals).batches.length ∧
    lockScan (nextQueueRun v arrivals).trace LockSt.unlocked = some LockSt.unlocked ∧
    call.version = b.1 :=
  ⟨nextQueueRun_stampScan arrivals v, nextQueueRun_bumpCount arrivals v,
   nextQueueRun_version arrivals v, nextQueueRun_lockScan arrivals v,
   (nextQueueRun_batch_calls arrivals v b hb call hc).1⟩

/-- C8 witness: the theorem applied to the run from version 3 with bursts
[some 4] and [some 6], at the second batch's single call. -/
theorem c8_single_writer_stamps_witness :
    stampScan (nextQueueRun 3 [[some 4], [some 6]]).trace 3
      = some (nextQueueRun 3 [[some 4], [some 6]]).version ∧
    (nextQueueRun 3 [[some 4], [some 6]]).trace.countP isBumpEvent
      = (nextQueueRun 3 [[some 4], [some 6]]).batches.length ∧
    (nextQueueRun 3 [[some 4], [some 6]]).version
      = 3 + (nextQueueRun 3 [[some 4], [some 6]]).batches.length ∧
    lockScan (nextQueueRun 3 [[some 4], [some 6]]).trace LockSt.unlocked
      = some LockSt.unlocked ∧
    (⟨6, 5, true⟩ : RefreshCall).version
      = ((5, [(⟨6, 5, true⟩ : RefreshCall)]) : Nat × List RefreshCall).1 :=
  c8_single_writer_stamps 3 [[some 4], [some 6]] (5, [⟨6, 5, true⟩]) (by decide)
    ⟨6, 5, true⟩ (by decide)

/-- C9: the thread-local inManagerThread flag is true exactly on the pool
worker threads and false on the propagation thread (and on external threads);
consequently the propagation thread's refresh handoffs to the Recompute Pool
never take the throwing path: they never produce the overload error, and on a
full queue they block instead. -/
theorem c9_propagation_thread_never_overloads (i : Fin kCurrentThreadPoolSize)
    (q qfull : MPMCQueue (Option MgrTask)) (call : RefreshCall)
    (hfull : qfull.capacity ≤ qfull.items.length) :
    inManagerThread (ThreadKind.poolWorker i) = true ∧
    inManagerThread ThreadKind.propagationThread = false ∧
    inManagerThread ThreadKind.external = false ∧
    (scheduleRefresh ThreadKind.propagationThread q call).isOverload = false ∧
    scheduleRefresh ThreadKind.propagationThread qfull call = AddResult.blocked := by
  have hnf : ¬ qfull.items.length < qfull.capacity := by omega
  refine ⟨rfl, rfl, rfl, ?_, ?_⟩
  · simp only [scheduleRefresh, CurrentQueue.add, inManagerThread,
      inManagerThreadInit, Bool.false_eq_true, if_false, MPMCQueue.blockingWrite]
    by_cases h : q.items.length < q.capacity <;>
      simp [MPMCQueue.write, h, AddResult.isOverload]
  · simp [scheduleRefresh, CurrentQueue.add, inManagerThread,
      inManagerThreadInit, MPMCQueue.blockingWrite, MPMCQueue.write, hnf]

/-- C9 witness: the theorem applied to worker index 0, the empty recompute
queue, and the full one. -/
theorem c9_propagation_thread_never_overloads_witness :
    inManagerThread (ThreadKind.poolWorker workerZeroIdx) = true ∧
    inManagerThread ThreadKind.propagationThread = false ∧
    inManagerThread ThreadKind.external = false ∧
    (scheduleRefresh ThreadKind.propagationThread freeCurrentQueue
        ⟨5, 1, true⟩).isOverload = false ∧
    scheduleRefresh ThreadKind.propagationThread fullCurrentQueue ⟨5, 1, true⟩
      = AddResult.blocked :=
  c9_propagation_thread_never_overloads workerZeroIdx freeCurrentQueue
    fullCurrentQueue ⟨5, 1, true⟩ (by simp [fullCurrentQueue])

/-- C10: a default-constructed (empty) function passed to scheduleCurrent is
the same queue value as the shutdown sentinel; it is enqueued like any task,
and the worker that dequeues it terminates its loop immediately: the loop
yields only the terminated event (no execution, no log, no failure report, no
further dequeue by this worker), and the pool's alive-worker count drops by
one permanently. -/
theorem c10_empty_function_is_sentinel (rest : List (Option MgrTask)) (w : Nat)
    (q : MPMCQueue (Option MgrTask)) (hq : q.items.length < q.capacity) :
    emptyFunction = shutdownSentinel ∧
    scheduleCurrent ThreadKind.external q emptyFunction
      = AddResult.enqueued ⟨q.capacity, q.items ++ [emptyFunction]⟩ ∧
    workerLoop (emptyFunction :: rest) = [WEvent.terminated] ∧
    poolDrain (w + 1) (emptyFunction :: rest) = WEvent.terminated :: poolDrain w rest := by
  refine ⟨rfl, ?_, rfl, rfl⟩
  simp [scheduleCurrent, CurrentQueue.add, inManagerThread, inManagerThreadInit,
    MPMCQueue.blockingWrite, MPMCQueue.write, hq, emptyFunction]

/-- C10 witness: the theorem applied to the empty recompute queue, a remaining
queue holding one genuine task, and three other alive workers. -/
theorem c10_empty_function_is_sentinel_witness :
    emptyFunction = shutdownSentinel ∧
    scheduleCurrent ThreadKind.external freeCurrentQueue emptyFunction
      = AddResult.enqueued
          ⟨freeCurrentQueue.capacity, freeCurrentQueue.items ++ [emptyFunction]⟩ ∧
    workerLoop (emptyFunction :: [some ⟨3, false⟩]) = [WEvent.terminated] ∧
    poolDrain (3 + 1) (emptyFunction :: [some ⟨3, false⟩])
      = WEvent.terminated :: poolDrain 3 [some ⟨3, false⟩] :=
  c10_empty_function_is_sentinel [some ⟨3, false⟩] 3 freeCurrentQueue
    (by simp [freeCurrentQueue, kCurrentQueueSize])
